import Mathlib

/-!
Verification of the chess-engine core (search, move ordering, transposition
table, opening book) against its natural-language specification.

The development shallow-embeds the C++ sources:
  - search.cpp        (Search::getMoveScore, quiescence, search, updateHistory,
                       updateKillers, clearHistory, mateDistancePruning, ...)
  - transposition.cpp (TranspositionTable::store/probe/clear, shouldReplace,
                       constructor, newSearch)
  - engine.cpp        (ChessEngine::search driver, newGame, setHashSize)
  - book.cpp          (OpeningBook::getPolyGlotKey, polyGlotMoveToMove,
                       findEntries, selectMove, getMove)

The board-primitive library (chess.hpp) is an external collaborator; the
embedding represents a position by the observations the engine code actually
makes of it (piece-at-square, side to move, in-check, capture flags, legal
move list, en-passant square, castling rights).  Machine integers are
modelled as Nat/Int with explicit wrap-around (mod 2^8, mod 2^16, mod 2^64)
exactly where the C++ types overflow or convert.
-/

namespace EngineModel

/-! ## Constants (types.h) -/

def MAX_DEPTH : Int := 64
def MAX_PLY : Int := 128
def MATE_VALUE : Int := 30000
def MATE_IN_MAX_PLY : Int := MATE_VALUE - MAX_PLY

/-! ## Chess primitive types (interface of chess.hpp, consumed by the core) -/

/-- Piece types, in the index order used by chess.hpp
(PAWN=0, KNIGHT=1, BISHOP=2, ROOK=3, QUEEN=4, KING=5). -/
inductive Pc where
  | pawn
  | knight
  | bishop
  | rook
  | queen
  | king
deriving DecidableEq, Repr

def Pc.idx : Pc → ℕ
  | .pawn => 0
  | .knight => 1
  | .bishop => 2
  | .rook => 3
  | .queen => 4
  | .king => 5

inductive Color where
  | white
  | black
deriving DecidableEq, Repr

/-- static_cast<int>(color): WHITE = 0, BLACK = 1. -/
def Color.idx : Color → ℕ
  | .white => 0
  | .black => 1

/-- Move types of chess.hpp, with the numeric tag used in the 16-bit
encoding (NORMAL = 0 << 14, PROMOTION = 1 << 14, ENPASSANT = 2 << 14,
CASTLING = 3 << 14). -/
inductive MoveKind where
  | normal
  | promotion
  | enpassant
  | castling
deriving DecidableEq, Repr

def MoveKind.idx : MoveKind → ℕ
  | .normal => 0
  | .promotion => 1
  | .enpassant => 2
  | .castling => 3

/-- A chess.hpp Move: from-square, to-square, move type, promotion piece
(meaningful only for promotions; the 0 encoding decodes as knight). -/
structure MoveM where
  fromSq : ℕ
  toSq : ℕ
  kind : MoveKind
  promo : Pc
deriving DecidableEq, Repr

/-- The 16-bit packing used by chess.hpp Move::make: the raw value
move.move().  Modelled from the external library:
type tag in bits 14-15, (promo - KNIGHT) in bits 12-13, from in bits 6-11,
to in bits 0-5. -/
def moveEncode (m : MoveM) : ℕ :=
  m.kind.idx * 16384 + (m.promo.idx - 1) * 4096 + m.fromSq * 64 + m.toSq

/-- Move::NO_MOVE (raw encoding 0). -/
def NO_MOVE : MoveM := ⟨0, 0, .normal, .knight⟩

/-- A square's occupant, as returned by board.at(sq):
none models Piece::NONE. -/
abbrev PieceAt := Option (Color × Pc)

/-- The observations of a position that the move-ordering code makes
(board.at, board.isCapture, board.sideToMove, board.inCheck). -/
structure BoardView where
  pieceAt : ℕ → PieceAt
  isCapture : MoveM → Bool
  sideToMove : Color
  inCheck : Bool

/-! ## Move-ordering state and Search::getMoveScore (search.cpp) -/

/-- MVV_LVA table from types.h, row = victim type, column = attacker type. -/
def MVV_LVA_TABLE : List (List Int) :=
  [[15, 14, 13, 12, 11, 10],
   [25, 24, 23, 22, 21, 20],
   [35, 34, 33, 32, 31, 30],
   [45, 44, 43, 42, 41, 40],
   [55, 54, 53, 52, 51, 50],
   [0, 0, 0, 0, 0, 0]]

def MVV_LVA (victim attacker : ℕ) : Int :=
  (MVV_LVA_TABLE.getD victim []).getD attacker 0

/-- Search member state: history_[2][64][64] (int counters, indexed by
color/from/to) and killer_moves_[MAX_PLY][2] (raw move encodings stored as
int, as updateKillers stores move.move()). -/
structure OrderState where
  history : ℕ → ℕ → ℕ → Int
  killers : ℕ → ℕ → ℕ

/-- Search::clearHistory — zero both tables. -/
def clearHistory : OrderState :=
  ⟨fun _ _ _ => 0, fun _ _ => 0⟩

/-- Search::getMoveScore.  Hash move scores 1000000; a capture scores
10000 + MVV_LVA only when both board.at(to) and board.at(from) hold a
piece, otherwise the initial score 0 survives; otherwise killers score
9000 and quiet moves score the history counter. -/
def getMoveScore (st : OrderState) (b : BoardView) (move hashMove : MoveM)
    (ply : ℕ) : Int :=
  if move = hashMove then 1000000
  else if b.isCapture move then
    match b.pieceAt move.toSq, b.pieceAt move.fromSq with
    | some (_, victim), some (_, attacker) =>
        10000 + MVV_LVA victim.idx attacker.idx
    | _, _ => 0
  else if (ply : Int) < MAX_PLY ∧
      (moveEncode move = st.killers ply 0 ∨ moveEncode move = st.killers ply 1)
  then 9000
  else st.history b.sideToMove.idx move.fromSq move.toSq

/-- The first effect of Search::updateHistory: the history table with
depth*depth added to the cell [c][m.from][m.to]. -/
def bumpCell (st : OrderState) (m : MoveM) (c : ℕ) (depth : Int) :
    ℕ → ℕ → ℕ → Int :=
  fun c2 f2 t2 =>
    if c2 = c ∧ f2 = m.fromSq ∧ t2 = m.toSq
    then st.history c2 f2 t2 + depth * depth
    else st.history c2 f2 t2

/-- Search::updateHistory — add depth*depth to the cell, then if the cell
exceeds 10000 halve every cell of that color's 64x64 table. -/
def updateHistory (st : OrderState) (m : MoveM) (color : Color)
    (depth : Int) : OrderState :=
  let c := color.idx
  let h1 := bumpCell st m c depth
  if h1 c m.fromSq m.toSq > 10000 then
    { st with history := fun c2 f2 t2 => if c2 = c then h1 c2 f2 t2 / 2 else h1 c2 f2 t2 }
  else
    { st with history := h1 }

/-- Search::updateKillers — shift slot 0 into slot 1 unless the move is
already the first killer. -/
def updateKillers (st : OrderState) (m : MoveM) (ply : ℕ) : OrderState :=
  if (ply : Int) < MAX_PLY then
    if st.killers ply 0 ≠ moveEncode m then
      { st with killers := fun p s =>
          if p = ply then
            (if s = 0 then moveEncode m
             else if s = 1 then st.killers ply 0
             else st.killers p s)
          else st.killers p s }
    else st
  else st

end EngineModel

namespace EngineModel

/-! ## Quiescence search (Search::quiescence, search.cpp)

The recursion of quiescence is embedded on the tree it actually unfolds: a
node carries the static evaluation of the position (stand pat), the in-check
flag, and the list of generated capture moves in the order the search
iterates them (the source sorts the capture movelist by getMoveScore before
the loop; the sort only permutes the list, and every claim below quantifies
over all list orders, so each sorted order is an instance).  Each capture
carries the data the loop body reads: whether the move is an en-passant
capture, the occupant of its destination square (board.at(move.to()), which
is empty for en passant), and the subtree of the position after the move. -/

mutual
inductive QTree where
  | node (standPat : Int) (inCheck : Bool) (caps : QCaps)
inductive QCaps where
  | nil
  | cons (isEp : Bool) (dest : PieceAt) (child : QTree) (rest : QCaps)
end

/-- The captured_value computed by the delta-pruning block of
Search::quiescence: the piece value of the occupant of move.to(), 0 when the
destination square is empty (as for en passant) and 0 for a king (the
switch's default case). -/
def capturedValue (dest : PieceAt) : Int :=
  match dest with
  | none => 0
  | some (_, .pawn) => 100
  | some (_, .knight) => 320
  | some (_, .bishop) => 330
  | some (_, .rook) => 500
  | some (_, .queen) => 900
  | some (_, .king) => 0

mutual
/-- Search::quiescence.  The stop parameter is the (constant) value
observed by info.should_stop(); the claims below always take it false. -/
def quiescence (stop : Bool) (t : QTree) (alpha beta : Int) : Int :=
  match t with
  | .node standPat inCheck caps =>
    if stop then 0
    else if standPat ≥ beta then beta
    else
      let alpha1 := if standPat > alpha then standPat else alpha
      qLoop stop standPat inCheck caps alpha1 beta

/-- The capture loop of Search::quiescence: delta pruning, recursive call,
beta cutoff, alpha update; falls off the list returning alpha. -/
def qLoop (stop : Bool) (standPat : Int) (inCheck : Bool) (caps : QCaps)
    (alpha beta : Int) : Int :=
  match caps with
  | .nil => alpha
  | .cons _ dest child rest =>
    if stop then alpha
    else if inCheck = false ∧ standPat + capturedValue dest + 200 < alpha then
      qLoop stop standPat inCheck rest alpha beta
    else
      let score := -quiescence stop child (-beta) (-alpha)
      if score ≥ beta then beta
      else
        let alpha2 := if score > alpha then score else alpha
        qLoop stop standPat inCheck rest alpha2 beta
end

mutual
/-- Refinement comparison only — follows the WORDS of the specification of
delta pruning (claim C2): identical to quiescence except that the value v of
the captured piece is the pawn value 100 when the capture is en passant. -/
def quiescenceDeltaSpec (stop : Bool) (t : QTree) (alpha beta : Int) : Int :=
  match t with
  | .node standPat inCheck caps =>
    if stop then 0
    else if standPat ≥ beta then beta
    else
      let alpha1 := if standPat > alpha then standPat else alpha
      qLoopDeltaSpec stop standPat inCheck caps alpha1 beta

/-- Loop of quiescenceDeltaSpec (spec-worded delta pruning). -/
def qLoopDeltaSpec (stop : Bool) (standPat : Int) (inCheck : Bool)
    (caps : QCaps) (alpha beta : Int) : Int :=
  match caps with
  | .nil => alpha
  | .cons isEp dest child rest =>
    if stop then alpha
    else if inCheck = false ∧
        standPat + (if isEp then 100 else capturedValue dest) + 200 < alpha then
      qLoopDeltaSpec stop standPat inCheck rest alpha beta
    else
      let score := -quiescenceDeltaSpec stop child (-beta) (-alpha)
      if score ≥ beta then beta
      else
        let alpha2 := if score > alpha then score else alpha
        qLoopDeltaSpec stop standPat inCheck rest alpha2 beta
end

end EngineModel

namespace EngineModel

/-! ## Transposition table (transposition.h / transposition.cpp) -/

/-- TTFlag of types.h (TT_NONE = 0, TT_EXACT = 1, TT_LOWER = 2,
TT_UPPER = 3). -/
inductive TTFlag where
  | tt_none
  | tt_exact
  | tt_lower
  | tt_upper
deriving DecidableEq, Repr

/-- TTEntry.  hash is a uint64 (value < 2^64 in any reachable state); score
and eval are int16; depth, flag and age are uint8; move is stored as its
raw encoding. -/
structure TTEntryM where
  hash : ℕ
  move : MoveM
  score : Int
  eval : Int
  depth : ℕ
  flag : TTFlag
  age : ℕ
deriving DecidableEq, Repr

/-- The zero-initialized TTEntry (the default constructor, also the state
after memset 0 in clear()). -/
def emptyEntry : TTEntryM := ⟨0, NO_MOVE, 0, 0, 0, .tt_none, 0⟩

/-- TranspositionTable state: the entry array (as a function from index),
its size, the index mask and the age counter (uint8). -/
structure TTState where
  table : ℕ → TTEntryM
  tableSize : ℕ
  mask : ℕ
  age : ℕ

/-- static_cast<int16_t>(x): two's-complement wrap of an int into
[-2^15, 2^15). -/
def toInt16 (x : Int) : Int := (x + 2 ^ 15) % 2 ^ 16 - 2 ^ 15

/-- static_cast<uint8_t>(x): wrap of an int into [0, 2^8). -/
def toUInt8 (x : Int) : ℕ := (x % 256).toNat

/-- TranspositionTable::getIndex — hash & table_mask_. -/
def getIndex (tt : TTState) (hash : ℕ) : ℕ := hash &&& tt.mask

/-- TranspositionTable::shouldReplace — replace when the incumbent is from
an older search (age differs), else when the new depth is at least the
incumbent depth. -/
def shouldReplace (existing : TTEntryM) (depth : Int) (newAge : ℕ) : Bool :=
  if existing.age ≠ newAge then true
  else depth ≥ (existing.depth : Int)

/-- TranspositionTable::store — overwrite the slot when its hash differs or
shouldReplace holds; the stored depth/score/eval narrow through
uint8/int16 casts and the entry is stamped with the current age. -/
def ttStore (tt : TTState) (hash : ℕ) (depth : Int) (score : Int)
    (flag : TTFlag) (move : MoveM) (eval : Int) : TTState :=
  let idx := getIndex tt hash
  let e := tt.table idx
  if e.hash ≠ hash ∨ shouldReplace e depth tt.age = true then
    { tt with table := fun j =>
        if j = idx then
          ⟨hash, move, toInt16 score, toInt16 eval, toUInt8 depth, flag, tt.age⟩
        else tt.table j }
  else tt

/-- TranspositionTable::probe — the slot at the index, only when its hash
matches. -/
def ttProbe (tt : TTState) (hash : ℕ) : Option TTEntryM :=
  let e := tt.table (getIndex tt hash)
  if e.hash = hash then some e else none

/-- TranspositionTable::clear — zero the table and reset the age. -/
def ttClear (tt : TTState) : TTState :=
  { tt with table := fun _ => emptyEntry, age := 0 }

/-- TranspositionTable::newSearch — age_++ on a uint8, wrapping mod 256. -/
def newSearch (tt : TTState) : TTState := { tt with age := (tt.age + 1) % 256 }

/-- Modelled sizeof(TTEntry): 8 (hash) + 4 (chess.hpp Move) + 2 + 2 (score,
eval) + 3 (depth, flag, age) bytes, padded to 8-byte alignment.  The claims
below do not depend on this value (the failing hash size 0 yields a
zero-byte request for every entry size). -/
def sizeofTTEntry : ℕ := 24

/-- Word size of size_t. -/
def U64 : ℕ := 2 ^ 64

/-- The constructor's rounding loop: power = 1; while (power <= ts)
power <<= 1.  The fuel argument (ts + 1 at the call site) strictly bounds
the number of doublings from 1. -/
def powerLoop : ℕ → ℕ → ℕ → ℕ
  | 0, power, _ => power
  | fuel + 1, power, ts => if power ≤ ts then powerLoop fuel (2 * power) ts else power

/-- TranspositionTable::TranspositionTable(size_mb): size_bytes =
static_cast<size_t>(size_mb) * 1024 * 1024 (size_t arithmetic, mod 2^64);
table_size_ = size_bytes / sizeof(TTEntry), rounded down to a power of two
by the doubling loop (0 stays 0); table_mask_ = table_size_ - 1 in size_t
arithmetic (so 2^64 - 1 when table_size_ is 0); the table is freshly
zeroed and age_ = 0. -/
def ttInit (sizeMb : Int) : TTState :=
  let sizeT : ℕ := (sizeMb % (U64 : Int)).toNat
  let sizeBytes : ℕ := sizeT * 1024 * 1024 % U64
  let ts0 : ℕ := sizeBytes / sizeofTTEntry
  let tsize : ℕ := powerLoop (ts0 + 1) 1 ts0 / 2
  { table := fun _ => emptyEntry,
    tableSize := tsize,
    mask := (tsize + U64 - 1) % U64,
    age := 0 }

end EngineModel

namespace EngineModel

/-! ## Interior search node (Search::search, search.cpp)

The interior negamax is embedded one node at a time: a NodeView packs every
observation the body of Search::search makes of the position, and the
results of the recursive calls are supplied as oracle functions (one per
legal move, plus one for the null-move child and one for the quiescence
delegation).  Any concrete execution of the C++ function is an instance of
this embedding with the oracles set to the scores the recursion actually
returned.  The function returns the node's score; the table store, PV and
killer/history writes performed on the way do not feed back into the
returned value at this node. -/

/-- Per-legal-move observations and the child-search oracle.  givesCheck is
board.inCheck() after makeMove; isCaptureChild is board.isCapture(move)
evaluated on the child position (the LMR guard queries it after makeMove);
child d a b is the value of search(child_board, d, ply+1, a, b). -/
structure MoveView where
  move : MoveM
  givesCheck : Bool
  isCaptureChild : Bool
  child : Int → Int → Int → Int

/-- Node-level observations of Search::search. -/
structure NodeView where
  stopped : Bool
  isRepetition : Bool
  isHalfMoveDraw : Bool
  inCheck : Bool
  hash : ℕ
  ttResult : Option TTEntryM
  hasNonPawnMaterial : Bool
  nullChild : Int → Int → Int → Int
  legalMoves : List MoveView

/-- The mate-score un-adjustment applied to a TT score on a hit
(score -= ply above MATE_IN_MAX_PLY, += ply below the negation). -/
def ttScoreAdjust (score : Int) (ply : Int) : Int :=
  if score > MATE_IN_MAX_PLY then score - ply
  else if score < -MATE_IN_MAX_PLY then score + ply
  else score

/-- The transposition-table early return of Search::search: some score when
the probe hit an entry of sufficient depth at a non-PV node whose flag and
bound allow a cutoff, none when control falls through. -/
def ttCutoff (entry : Option TTEntryM) (hash : ℕ) (depth : Int)
    (pvNode : Bool) (alpha beta ply : Int) : Option Int :=
  match entry with
  | none => none
  | some e =>
    if e.hash = hash then
      if (e.depth : Int) ≥ depth ∧ pvNode = false then
        let ttScore := ttScoreAdjust e.score ply
        match e.flag with
        | .tt_exact => some ttScore
        | .tt_lower => if ttScore ≥ beta then some ttScore else none
        | .tt_upper => if ttScore ≤ alpha then some ttScore else none
        | .tt_none => none
      else none
    else none

/-- The null-move-pruning early return of Search::search: when permitted
(allowed flag, non-PV, not in check, depth at least 3, non-pawn material),
search the null child with reduction R = 3 + depth / 6 on a zero window and
return its negated score when that reaches beta. -/
def nullCutoff (v : NodeView) (depth beta : Int) (pvNode nullMoveAllowed : Bool) :
    Option Int :=
  if nullMoveAllowed = true ∧ pvNode = false ∧ v.inCheck = false ∧
      depth ≥ 3 ∧ v.hasNonPawnMaterial = true then
    let r := 3 + depth / 6
    let nullScore := -(v.nullChild (depth - r - 1) (-beta) (-beta + 1))
    if nullScore ≥ beta then some nullScore else none
  else none

/-- Search::getExtension — 1 on check to the opponent (board.inCheck()
after the move) or on a promotion, else 0. -/
def getExtension (m : MoveView) : Int :=
  if m.givesCheck then 1
  else if m.move.kind = .promotion then 1
  else 0

/-- Search::getReduction. -/
def getReduction (depth : Int) (moveCount : Int) (pvNode : Bool) : Int :=
  if pvNode then max 0 (depth / 6 + moveCount / 8 - 1)
  else max 0 (depth / 4 + moveCount / 6)

/-- The move loop of Search::search (LMR, PVS, alpha/beta bookkeeping,
beta cutoff), returning best_score.  i is the 0-based move index,
inCheckParent the in_check flag computed before the loop. -/
def searchMoveLoop (moves : List MoveView) (i : ℕ) (depth ply : Int)
    (alpha beta : Int) (pvNode inCheckParent : Bool) (bestScore : Int) : Int :=
  match moves with
  | [] => bestScore
  | m :: rest =>
    let ext := getExtension m
    let newDepth := depth - 1 + ext
    let score :=
      if i ≥ 4 ∧ depth ≥ 3 ∧ inCheckParent = false ∧ m.givesCheck = false ∧
          m.move.kind = .normal ∧ m.isCaptureChild = false then
        let reduction := getReduction depth (i : Int) pvNode
        let s1 := -(m.child (newDepth - reduction) (-alpha - 1) (-alpha))
        if s1 > alpha then -(m.child newDepth (-alpha - 1) (-alpha)) else s1
      else if i = 0 ∨ pvNode = true then
        -(m.child newDepth (-beta) (-alpha))
      else
        let s1 := -(m.child newDepth (-alpha - 1) (-alpha))
        if s1 > alpha ∧ s1 < beta then -(m.child newDepth (-beta) (-alpha))
        else s1
    if score > bestScore then
      if score > alpha then
        if score ≥ beta then score
        else searchMoveLoop rest (i + 1) depth ply score beta pvNode inCheckParent score
      else searchMoveLoop rest (i + 1) depth ply alpha beta pvNode inCheckParent score
    else searchMoveLoop rest (i + 1) depth ply alpha beta pvNode inCheckParent bestScore

/-- Search::mateDistancePruning, action on alpha: raise alpha to
-MATE_VALUE + ply. -/
def mdpAlpha (alpha ply : Int) : Int := max alpha (-MATE_VALUE + ply)

/-- Search::mateDistancePruning, action on beta: lower beta to
MATE_VALUE - ply - 1. -/
def mdpBeta (beta ply : Int) : Int := min beta (MATE_VALUE - ply - 1)

/-- Search::search at one node: stop check, mate-distance pruning, draw
check, quiescence delegation at depth <= 0, transposition probe, null-move
pruning, legal-move generation (the stalemate/mate return when empty), then
the move loop.  quiescenceAt a b is the oracle for
quiescence(board, ply, a, b). -/
def searchNode (v : NodeView) (depth ply alpha beta : Int)
    (nullMoveAllowed : Bool) (quiescenceAt : Int → Int → Int) : Int :=
  if v.stopped then 0
  else
    let alpha1 := mdpAlpha alpha ply
    let beta1 := mdpBeta beta ply
    if alpha1 ≥ beta1 then alpha1
    else if ply > 0 ∧ (v.isRepetition = true ∨ v.isHalfMoveDraw = true) then 0
    else
      let pvNode := decide (beta1 - alpha1 > 1)
      if depth ≤ 0 then quiescenceAt alpha1 beta1
      else
        match ttCutoff v.ttResult v.hash depth pvNode alpha1 beta1 ply with
        | some s => s
        | none =>
          match nullCutoff v depth beta1 pvNode nullMoveAllowed with
          | some s => s
          | none =>
            if v.legalMoves.isEmpty then
              if v.inCheck then -MATE_VALUE + ply else 0
            else
              searchMoveLoop v.legalMoves 0 depth ply alpha1 beta1 pvNode
                v.inCheck (-MATE_VALUE)

end EngineModel

namespace EngineModel

/-! ## Engine driver state (engine.cpp) -/

/-- SearchInfo (types.h): counters, stop flag and time limit; the
steady-clock start time is not observable by the claims and is omitted. -/
structure InfoState where
  depth : ℕ
  seldepth : ℕ
  nodes : ℕ
  timeMs : ℕ
  stopped : Bool
  timeLimitMs : Int
deriving DecidableEq, Repr

/-- SearchInfo::reset — zero the counters and the stop flag (the time limit
is left as configured). -/
def infoReset (info : InfoState) : InfoState :=
  { info with depth := 0, seldepth := 0, nodes := 0, timeMs := 0, stopped := false }

/-- ChessEngine state: the position (opaque to the claims below, kept as an
identifier), the owned TranspositionTable, the Search member's ordering
tables, the request-scoped SearchInfo and the searching flag. -/
structure EngineSt where
  board : ℕ
  tt : TTState
  ord : OrderState
  info : InfoState
  searching : Bool

/-- ChessEngine::newGame — set the start position, clear the transposition
table, reset the search info.  It performs no other writes: in particular
the Search member's history and killer tables are not touched (Search::
clearHistory runs only in the Search constructor). -/
def newGame (st : EngineSt) : EngineSt :=
  { st with board := 0, tt := ttClear st.tt, info := infoReset st.info }

/-- One transposition store issued somewhere inside Search::searchRoot /
Search::search during an iteration of the driver loop. -/
structure StoreOp where
  hash : ℕ
  depth : Int
  score : Int
  flag : TTFlag
  move : MoveM
  eval : Int

def runStores (tt : TTState) (ops : List StoreOp) : TTState :=
  ops.foldl (fun acc op => ttStore acc op.hash op.depth op.score op.flag op.move op.eval) tt

/-- The setup block of ChessEngine::search after the opening-book probe
misses (engine.cpp lines 116-133): reset the search info, derive the time
limit from movetime or the clock, raise the searching flag.  The body
performs no call to TranspositionTable::newSearch. -/
def searchSetup (st : EngineSt) (movetime ourTime ourInc : Int)
    (anyClock infinite : Bool) : EngineSt :=
  let info1 := infoReset st.info
  let info2 :=
    if movetime > 0 then { info1 with timeLimitMs := movetime }
    else if infinite = false ∧ anyClock = true then
      { info1 with timeLimitMs := max 100 (ourTime / 30 + ourInc / 2) }
    else info1
  { st with info := info2, searching := true }

/-- The whole of ChessEngine::search as it acts on the transposition table:
the setup block followed by the iterative-deepening loop, whose only
transposition-table effects are the stores issued by searchRoot and the
interior search (one batch per completed iteration).  Probes do not mutate
the table and the driver never invokes newSearch. -/
def searchDriver (st : EngineSt) (movetime ourTime ourInc : Int)
    (anyClock infinite : Bool) (iterationStores : List (List StoreOp)) : EngineSt :=
  let st1 := searchSetup st movetime ourTime ourInc anyClock infinite
  let tt2 := iterationStores.foldl runStores st1.tt
  { st1 with tt := tt2, searching := false }

end EngineModel

namespace EngineModel

/-! ## Opening book (book.cpp) -/

/-- A PolyGlot record after byte-swapping to host order. -/
structure PGEntry where
  key : ℕ
  move : ℕ
  weight : ℕ
  learn : ℕ
deriving DecidableEq, Repr

/-- The observations of a position that the book code makes: piece
placement, castling rights, en-passant square (none for NO_SQ), side to
move and the legal-move list used for the legality filter. -/
structure BookBoard where
  pieceAt : ℕ → PieceAt
  castleWK : Bool
  castleWQ : Bool
  castleBK : Bool
  castleBQ : Bool
  epSq : Option ℕ
  sideToMove : Color
  legalMoves : List MoveM

/-- The PolyGlot piece index of book.cpp: WP=0, WN=1, WB=2, WR=3, WQ=4,
WK=5, BP=6, ..., BK=11. -/
def polyPieceIndex (c : Color) (p : Pc) : ℕ :=
  match c with
  | .white => p.idx
  | .black => 6 + p.idx

/-- Square::file — the file index of a 0..63 square. -/
def fileOf (sq : ℕ) : ℕ := sq % 8

/-- OpeningBook::getPolyGlotKey, parameterized by the 781-entry random
table R (the source lists the canonical constants; their values never
matter to the claims, only which indices are XORed in).  Pieces, the four
castling rights, the en-passant file term — XORed whenever an en-passant
square exists, with no check for a capturing pawn — and the side-to-move
term for White. -/
def getPolyGlotKey (r : ℕ → ℕ) (b : BookBoard) : ℕ :=
  let pieceKey := (List.range 64).foldl
    (fun k sq =>
      match b.pieceAt sq with
      | some (c, p) => k ^^^ r (64 * polyPieceIndex c p + sq)
      | none => k) 0
  let k1 := if b.castleWK then pieceKey ^^^ r 768 else pieceKey
  let k2 := if b.castleWQ then k1 ^^^ r 769 else k1
  let k3 := if b.castleBK then k2 ^^^ r 770 else k2
  let k4 := if b.castleBQ then k3 ^^^ r 771 else k3
  let k5 := match b.epSq with
    | some sq => k4 ^^^ r (772 + fileOf sq)
    | none => k4
  if b.sideToMove = .white then k5 ^^^ r 780 else k5

/-- The same board with the en-passant square cleared and nothing else
changed. -/
def clearEp (b : BookBoard) : BookBoard := { b with epSq := none }

/-- Refinement comparison only — the strict en-passant condition in the
WORDS of the specification: a friendly pawn of the side to move stands on
an adjacent file on the rank from which the en-passant capture is played
(rank index 4 for White, 3 for Black). -/
def hasEpCapturer (b : BookBoard) : Bool :=
  match b.epSq with
  | none => false
  | some e =>
    let f := fileOf e
    let capRank := if b.sideToMove = .white then 4 else 3
    decide ((1 ≤ f ∧ b.pieceAt (capRank * 8 + (f - 1)) = some (b.sideToMove, .pawn)) ∨
      (f ≤ 6 ∧ b.pieceAt (capRank * 8 + (f + 1)) = some (b.sideToMove, .pawn)))

/-- Refinement comparison only — the key computation as the specification
words it: identical to getPolyGlotKey except that the en-passant term
requires an actual capturing pawn. -/
def getPolyGlotKeyStrict (r : ℕ → ℕ) (b : BookBoard) : ℕ :=
  let pieceKey := (List.range 64).foldl
    (fun k sq =>
      match b.pieceAt sq with
      | some (c, p) => k ^^^ r (64 * polyPieceIndex c p + sq)
      | none => k) 0
  let k1 := if b.castleWK then pieceKey ^^^ r 768 else pieceKey
  let k2 := if b.castleWQ then k1 ^^^ r 769 else k1
  let k3 := if b.castleBK then k2 ^^^ r 770 else k2
  let k4 := if b.castleBQ then k3 ^^^ r 771 else k3
  let k5 := match b.epSq with
    | some sq => if hasEpCapturer b then k4 ^^^ r (772 + fileOf sq) else k4
    | none => k4
  if b.sideToMove = .white then k5 ^^^ r 780 else k5

/-- OpeningBook::polyGlotMoveToMove — decode a 16-bit PolyGlot move against
the current board: promotions (invalid promo codes default to queen), the
canonical castling king-hops rewritten to king-takes-rook targets,
pawn-to-en-passant-square rewritten to an en-passant move, else normal. -/
def polyGlotMoveToMove (polyMove : ℕ) (b : BookBoard) : MoveM :=
  let fromSq := (polyMove >>> 6) &&& 63
  let toSq := polyMove &&& 63
  let promotion := (polyMove >>> 12) &&& 7
  if promotion > 0 then
    let promoType : Pc :=
      match promotion with
      | 1 => .knight
      | 2 => .bishop
      | 3 => .rook
      | 4 => .queen
      | _ => .queen
    ⟨fromSq, toSq, .promotion, promoType⟩
  else
    let pieceType : Option Pc := (b.pieceAt fromSq).map (fun p => p.2)
    if pieceType = some .king ∧ fromSq = 4 ∧ toSq = 6 then ⟨4, 7, .castling, .knight⟩
    else if pieceType = some .king ∧ fromSq = 4 ∧ toSq = 2 then ⟨4, 0, .castling, .knight⟩
    else if pieceType = some .king ∧ fromSq = 60 ∧ toSq = 62 then ⟨60, 63, .castling, .knight⟩
    else if pieceType = some .king ∧ fromSq = 60 ∧ toSq = 58 then ⟨60, 56, .castling, .knight⟩
    else if pieceType = some .pawn ∧ b.epSq = some toSq then ⟨fromSq, toSq, .enpassant, .knight⟩
    else ⟨fromSq, toSq, .normal, .knight⟩

/-- OpeningBook::findEntries — lower_bound on the key-sorted entry array
followed by collecting the contiguous run of matching keys. -/
def findEntries (entries : List PGEntry) (key : ℕ) : List PGEntry :=
  (entries.dropWhile (fun e => e.key < key)).takeWhile (fun e => e.key = key)

/-- The weighted-selection walk of OpeningBook::selectMove: accumulate
weights until the drawn value falls below the running sum, then decode the
selected entry and return it only if it occurs in the legal-move list,
otherwise NO_MOVE (the break falls through to the final return). -/
def selLoop (b : BookBoard) (randomWeight : Int) :
    List PGEntry → Int → MoveM
  | [], _ => NO_MOVE
  | e :: rest, cur =>
    let cur2 := cur + (e.weight : Int)
    if randomWeight < cur2 then
      let mv := polyGlotMoveToMove e.move b
      if mv ∈ b.legalMoves then mv else NO_MOVE
    else selLoop b randomWeight rest cur2

/-- OpeningBook::selectMove, with the uniform draw randomWeight supplied as
a parameter (the source draws it from a process-global mt19937). -/
def selectMove (entries : List PGEntry) (b : BookBoard) (randomWeight : Int) :
    MoveM :=
  if entries.isEmpty then NO_MOVE
  else
    let totalWeight := entries.foldl (fun acc e => acc + (e.weight : Int)) 0
    if totalWeight = 0 then NO_MOVE
    else selLoop b randomWeight entries 0

/-- OpeningBook::getMove: nothing without a loaded book, else key the
position, collect the matching entries, and run the weighted selection. -/
def getMoveBook (r : ℕ → ℕ) (entries : List PGEntry) (loaded : Bool)
    (b : BookBoard) (randomWeight : Int) : MoveM :=
  if loaded = false then NO_MOVE
  else
    let key := getPolyGlotKey r b
    let found := findEntries entries key
    if found.isEmpty then NO_MOVE
    else selectMove found b randomWeight

end EngineModel

namespace EngineModel

/-! ## Concrete instances used by counterexamples and witnesses -/

/-- A piece placement with a white pawn on e5 (square 36) and a black pawn
on d5 (square 35), as after 1. e4 ... 2. e5 d5: the en-passant capture
e5xd6 exists and its destination d6 (square 43) is empty. -/
def c1PieceAt : ℕ → PieceAt := fun sq =>
  if sq = 36 then some (Color.white, Pc.pawn)
  else if sq = 35 then some (Color.black, Pc.pawn)
  else none

/-- The board view for that placement; isCapture follows the chess.hpp
semantics (destination occupied, or en-passant move type). -/
def c1Board : BoardView :=
  ⟨c1PieceAt,
   fun m => decide (m.kind = MoveKind.enpassant) || (c1PieceAt m.toSq).isSome,
   Color.white, false⟩

/-- The en-passant capture e5xd6. -/
def c1EpMove : MoveM := ⟨36, 43, .enpassant, .knight⟩

/-- A quiet move installed as first killer at ply 3. -/
def c1KillerMove : MoveM := ⟨10, 20, .normal, .knight⟩

/-- Ordering state with c1KillerMove as killers[3][0] and zero history. -/
def c1Ord : OrderState :=
  ⟨fun _ _ _ => 0, fun p s => if p = 3 ∧ s = 0 then moveEncode c1KillerMove else 0⟩

/-- The ordinary capture e5xd5 on the same board (destination occupied). -/
def c1NormalCapture : MoveM := ⟨36, 35, .normal, .knight⟩

/-- Quiescence tree with a single en-passant capture (empty destination)
whose child stands at -299: stand pat 0, not in check. -/
def c2Tree : QTree :=
  .node 0 false (.cons true none (.node (-299) false .nil) .nil)

/-- An engine state with a non-zero history cell and killer slot. -/
def c4Engine : EngineSt where
  board := 5
  tt := ⟨fun _ => emptyEntry, 2, 1, 3⟩
  ord := ⟨fun c f t => if c = 0 ∧ f = 1 ∧ t = 2 then 7 else 0,
          fun p s => if p = 3 ∧ s = 0 then 660 else 0⟩
  info := ⟨9, 9, 9, 9, true, 0⟩
  searching := false

/-- A two-slot transposition table (mask 1), empty, age 0. -/
def c5TT : TTState := ⟨fun _ => emptyEntry, 2, 1, 0⟩

/-- c5TT after storing hash 2 at depth 10 (lands in slot 0). -/
def c5s1 : TTState := ttStore c5TT 2 10 0 .tt_exact NO_MOVE 0

/-- c5s1 after storing hash 4 at depth 1 (also slot 0, different hash). -/
def c5s2 : TTState := ttStore c5s1 4 1 0 .tt_exact NO_MOVE 0

/-- A PolyGlot random table concentrating on index 772 (en-passant file a);
only which indices get XORed matters to the claims. -/
def c7R : ℕ → ℕ := fun i => if i = 772 then 1 else 0

/-- A board with an en-passant square on the a-file (square 16 has file 0)
and no pieces at all — in particular no friendly pawn able to capture. -/
def c7Board : BookBoard :=
  ⟨fun _ => none, false, false, false, false, some 16, Color.black, []⟩

/-- A node view for a position with no legal moves while in check, probed
fresh (no TT entry). -/
def c8View : NodeView where
  stopped := false
  isRepetition := false
  isHalfMoveDraw := false
  inCheck := true
  hash := 0
  ttResult := none
  hasNonPawnMaterial := false
  nullChild := fun _ _ _ => 0
  legalMoves := []

/-- A one-node quiescence tree standing at 5. -/
def c10Tree : QTree := .node 5 false .nil

/-- A book with one entry for key 0: the PolyGlot-encoded move e2e4
(from 12, to 28) with weight 5. -/
def c9Book : List PGEntry := [⟨0, 12 * 64 + 28, 5, 0⟩]

/-- The decoded move e2e4. -/
def c9Move : MoveM := ⟨12, 28, .normal, .knight⟩

/-- A board whose key under the all-zero random table is 0, with a white
pawn on e2 and exactly the legal move e2e4. -/
def c9Board : BookBoard :=
  ⟨fun sq => if sq = 12 then some (Color.white, Pc.pawn) else none,
   false, false, false, false, none, Color.black, [c9Move]⟩

/-- An all-zero random table for the c9 instance. -/
def c9R : ℕ → ℕ := fun _ => 0

end EngineModel

namespace EngineModel

/-! ## Helper lemmas -/

/-- Every MVV_LVA entry outside the king-victim row is at least 10. -/
theorem MVV_LVA_ge_ten (v a : Pc) (hv : v ≠ Pc.king) :
    10 ≤ MVV_LVA v.idx a.idx := by
  cases v <;> cases a <;> first
    | exact absurd rfl hv
    | decide

/-- A quiet non-hash move scores at most 10000 whenever every history cell
is at most 10000 (killers score 9000). -/
theorem getMoveScore_quiet_le (st : OrderState) (b : BoardView)
    (q hashMove : MoveM) (ply : ℕ)
    (hhist : ∀ c f t, st.history c f t ≤ 10000)
    (hq : b.isCapture q = false) (hqh : q ≠ hashMove) :
    getMoveScore st b q hashMove ply ≤ 10000 := by
  unfold getMoveScore
  rw [if_neg hqh, hq]
  simp only [Bool.false_eq_true, if_false]
  split
  · norm_num
  · exact hhist _ _ _

end EngineModel

namespace EngineModel

/-! ## Claim C1 — move-ordering scores of captures vs killers/history -/

/-- Claim C1 as stated is FALSE on the code: on the board c1Board the
en-passant capture e5xd6 is reported is-capture true, yet getMoveScore
gives it 0 (its destination square is empty, so the MVV-LVA branch leaves
the initial score), which is not greater than the killer score 9000
assigned at the same ply. -/
theorem getMoveScore_ep_capture_not_above_killer :
    c1Board.isCapture c1EpMove = true ∧
    getMoveScore c1Ord c1Board c1EpMove NO_MOVE 3 = 0 ∧
    getMoveScore c1Ord c1Board c1KillerMove NO_MOVE 3 = 9000 ∧
    ¬(getMoveScore c1Ord c1Board c1EpMove NO_MOVE 3 >
      getMoveScore c1Ord c1Board c1KillerMove NO_MOVE 3) := by
  decide

/-- Claim C1 amended: a capture move whose destination square holds a
non-king piece (every capture except en passant; kings are never capture
targets in legal chess) scores 10000 + MVV_LVA, which is strictly greater
than the killer score 9000 and than the score of any quiet non-hash move
at the same ply, provided every history counter is at most 10000 (the
bound updateHistory maintains).  En-passant captures instead score 0. -/
theorem getMoveScore_capture_tops_quiet
    (st : OrderState) (b : BoardView) (m q hashMove : MoveM) (ply : ℕ)
    (cv : Color) (v : Pc) (ca : Color) (a : Pc)
    (hhist : ∀ c f t, st.history c f t ≤ 10000)
    (hcap : b.isCapture m = true)
    (hvict : b.pieceAt m.toSq = some (cv, v))
    (hking : v ≠ Pc.king)
    (hatt : b.pieceAt m.fromSq = some (ca, a))
    (hm : m ≠ hashMove)
    (hq : b.isCapture q = false)
    (hqh : q ≠ hashMove) :
    getMoveScore st b m hashMove ply > 9000 ∧
    getMoveScore st b m hashMove ply > getMoveScore st b q hashMove ply := by
  have hmvv := MVV_LVA_ge_ten v a hking
  have hscore : getMoveScore st b m hashMove ply = 10000 + MVV_LVA v.idx a.idx := by
    unfold getMoveScore
    rw [if_neg hm, hcap]
    simp only [if_true]
    rw [hvict, hatt]
  have hquiet := getMoveScore_quiet_le st b q hashMove ply hhist hq hqh
  constructor
  · omega
  · omega

/-- Witness for the amended C1 at a concrete input: the ordinary capture
e5xd5 (pawn takes pawn) against the quiet move c1KillerMove, zero history. -/
theorem getMoveScore_capture_tops_quiet_witness :
    getMoveScore clearHistory c1Board c1NormalCapture NO_MOVE 3 > 9000 ∧
    getMoveScore clearHistory c1Board c1NormalCapture NO_MOVE 3 >
      getMoveScore clearHistory c1Board c1KillerMove NO_MOVE 3 :=
  getMoveScore_capture_tops_quiet clearHistory c1Board c1NormalCapture
    c1KillerMove NO_MOVE 3 Color.black Pc.pawn Color.white Pc.pawn
    (fun _ _ _ => by norm_num [clearHistory])
    (by decide) (by decide) (by decide) (by decide) (by decide) (by decide)
    (by decide)

end EngineModel

namespace EngineModel

/-- clearHistory leaves every history cell within [0, 10000]. -/
theorem clearHistory_history_bounds :
    ∀ c f t, 0 ≤ clearHistory.history c f t ∧ clearHistory.history c f t ≤ 10000 := by
  intro c f t
  constructor <;> norm_num [clearHistory]

/-- Projection computation rules for OrderState literals. -/
theorem OrderState_history_mk (h : ℕ → ℕ → ℕ → Int) (k : ℕ → ℕ → ℕ) :
    (OrderState.mk h k).history = h := rfl

/-- updateHistory keeps every history cell within [0, 10000] for the
depths the search can pass (depth between 0 and 100; the driver starts
iterations at most at MAX_DEPTH = 64 and extensions never increase depth). -/
theorem updateHistory_history_bounds
    (st : OrderState) (m : MoveM) (color : Color) (depth : Int)
    (hd0 : 0 ≤ depth) (hd : depth ≤ 100)
    (h : ∀ c f t, 0 ≤ st.history c f t ∧ st.history c f t ≤ 10000) :
    ∀ c f t, 0 ≤ (updateHistory st m color depth).history c f t ∧
      (updateHistory st m color depth).history c f t ≤ 10000 := by
  intro c f t
  have hcell := h c f t
  have hdd : depth * depth ≤ 10000 := by nlinarith
  have hdd0 : 0 ≤ depth * depth := by positivity
  have hb : ∀ c2 f2 t2, 0 ≤ bumpCell st m color.idx depth c2 f2 t2 ∧
      bumpCell st m color.idx depth c2 f2 t2 ≤ 10000 + depth * depth := by
    intro c2 f2 t2
    have hc2 := h c2 f2 t2
    unfold bumpCell
    split_ifs <;> constructor <;> omega
  have hbc := hb c f t
  simp only [updateHistory, gt_iff_lt]
  split
  · simp only [OrderState_history_mk]
    split_ifs with hceq
    · constructor <;> omega
    · have hsame : bumpCell st m color.idx depth c f t = st.history c f t := by
        unfold bumpCell
        rw [if_neg]
        intro hcon
        exact hceq hcon.1
      constructor <;> omega
  · rename_i hng
    simp only [OrderState_history_mk]
    by_cases hit : c = color.idx ∧ f = m.fromSq ∧ t = m.toSq
    · obtain ⟨hc, hf, ht⟩ := hit
      subst hc; subst hf; subst ht
      constructor <;> omega
    · have hsame : bumpCell st m color.idx depth c f t = st.history c f t := by
        unfold bumpCell
        rw [if_neg hit]
      constructor <;> omega

end EngineModel

namespace EngineModel

/-! ## Claim C2 — delta pruning in quiescence -/

/-- Claim C2 as stated is FALSE on the code: on c2Tree (stand pat 0, not in
check, one en-passant capture, window [250, 300]) the code computes
captured_value from the empty destination square, getting v = 0, and skips
the capture (0 + 0 + 200 < 250), returning 250, while the claim's rule
(v = 100 for en passant: 0 + 100 + 200 < 250 is false) searches it and
returns 299. -/
theorem quiescence_delta_ep_cex :
    quiescence false c2Tree 250 300 = 250 ∧
    quiescenceDeltaSpec false c2Tree 250 300 = 299 ∧
    quiescence false c2Tree 250 300 ≠ quiescenceDeltaSpec false c2Tree 250 300 := by
  decide

/-- Claim C2 amended: with the stop flag clear and no stand-pat cutoff, a
capture is delta-pruned (skipped, leaving the result that of the position
without it) exactly when the side to move is not in check and
stand_pat + v + 200 < alpha holds for the current alpha, where v is the
value of the piece on the DESTINATION square — so v = 0, not 100, for an
en-passant capture, whose destination is empty (and 0 for a king).
Otherwise the capture is searched as usual. -/
theorem quiescence_delta_prunes_on_destination_piece
    (isEp : Bool) (dest : PieceAt) (t : QTree) (rest : QCaps)
    (sp alpha beta : Int) (ic : Bool)
    (hsp : ¬ sp ≥ beta) :
    ((ic = false ∧ sp + capturedValue dest + 200 < max alpha sp) →
      quiescence false (.node sp ic (.cons isEp dest t rest)) alpha beta
        = quiescence false (.node sp ic rest) alpha beta) ∧
    (¬(ic = false ∧ sp + capturedValue dest + 200 < max alpha sp) →
      quiescence false (.node sp ic (.cons isEp dest t rest)) alpha beta
        = (if -quiescence false t (-beta) (-(max alpha sp)) ≥ beta then beta
           else qLoop false sp ic rest
             (max (max alpha sp) (-quiescence false t (-beta) (-(max alpha sp)))) beta)) := by
  have hmax : (if sp > alpha then sp else alpha) = max alpha sp := by
    split <;> omega
  have hmax2 : ∀ x y : Int, (if x > y then x else y) = max y x := by
    intro x y
    split <;> omega
  constructor
  · intro hcond
    simp only [quiescence, Bool.false_eq_true, if_false, if_neg hsp, hmax]
    rw [qLoop]
    simp only [Bool.false_eq_true, if_false]
    rw [if_pos hcond]
  · intro hcond
    simp only [quiescence, Bool.false_eq_true, if_false, if_neg hsp, hmax]
    rw [qLoop]
    simp only [Bool.false_eq_true, if_false]
    rw [if_neg hcond]
    simp only [hmax2]

/-- Witness for the amended C2: the skip direction at the concrete input of
the counterexample (en-passant capture, stand pat 0, alpha 250). -/
theorem quiescence_delta_prunes_witness :
    quiescence false (.node 0 false (.cons true none (.node 0 false .nil) .nil)) 250 300
      = quiescence false (.node 0 false .nil) 250 300 :=
  (quiescence_delta_prunes_on_destination_piece true none (.node 0 false .nil)
    .nil 0 250 300 false (by norm_num)).1 (by decide)

end EngineModel

namespace EngineModel

/-! ## Claim C10 — quiescence is fail-hard -/

mutual
/-- Bound helper for quiescence, by mutual induction with the loop. -/
theorem quiescenceBoundsAux (t : QTree) (alpha beta : Int) (h : alpha < beta) :
    alpha ≤ quiescence false t alpha beta ∧ quiescence false t alpha beta ≤ beta :=
  match t with
  | .node sp ic caps => by
    rw [quiescence]
    simp only [Bool.false_eq_true, if_false]
    split
    · exact ⟨le_of_lt h, le_refl beta⟩
    · rename_i hsp
      have ha1 : (if sp > alpha then sp else alpha) < beta ∧
          alpha ≤ (if sp > alpha then sp else alpha) := by
        constructor <;> (split <;> omega)
      have hl := qLoopBoundsAux caps sp ic (if sp > alpha then sp else alpha) beta ha1.1
      exact ⟨le_trans ha1.2 hl.1, hl.2⟩

/-- Bound helper for the quiescence capture loop. -/
theorem qLoopBoundsAux (caps : QCaps) (sp : Int) (ic : Bool) (alpha beta : Int)
    (h : alpha < beta) :
    alpha ≤ qLoop false sp ic caps alpha beta ∧ qLoop false sp ic caps alpha beta ≤ beta :=
  match caps with
  | .nil => by
    rw [qLoop]
    exact ⟨le_refl alpha, le_of_lt h⟩
  | .cons isEp dest child rest => by
    rw [qLoop]
    simp only [Bool.false_eq_true, if_false]
    split
    · exact qLoopBoundsAux rest sp ic alpha beta h
    · have hch := quiescenceBoundsAux child (-beta) (-alpha) (by omega)
      have hscore : alpha ≤ -quiescence false child (-beta) (-alpha) ∧
          -quiescence false child (-beta) (-alpha) ≤ beta := by omega
      split
      · exact ⟨le_of_lt h, le_refl beta⟩
      · rename_i hnb
        have ha2 : alpha ≤ (if -quiescence false child (-beta) (-alpha) > alpha
              then -quiescence false child (-beta) (-alpha) else alpha) ∧
            (if -quiescence false child (-beta) (-alpha) > alpha
              then -quiescence false child (-beta) (-alpha) else alpha) < beta := by
          constructor <;> (split <;> omega)
        have hl := qLoopBoundsAux rest sp ic _ beta ha2.2
        exact ⟨le_trans ha2.1 hl.1, hl.2⟩
end

/-- Claim C10: for every position (quiescence tree), window with
alpha < beta, and runs in which the stop flag is never observed set,
quiescence returns a value v with alpha <= v <= beta — fail-hard on both
sides of the window. -/
theorem quiescence_fail_hard (t : QTree) (alpha beta : Int) (h : alpha < beta) :
    alpha ≤ quiescence false t alpha beta ∧ quiescence false t alpha beta ≤ beta :=
  quiescenceBoundsAux t alpha beta h

/-- Witness for C10 at a concrete input: the tree c10Tree (stand pat 5)
with window [0, 10]. -/
theorem quiescence_fail_hard_witness :
    (0 : Int) ≤ quiescence false c10Tree 0 10 ∧ quiescence false c10Tree 0 10 ≤ 10 :=
  quiescence_fail_hard c10Tree 0 10 (by norm_num)

end EngineModel

namespace EngineModel

/-! ## Claim C8 — no legal moves at an interior node -/

/-- Claim C8: at an interior node where control reaches legal-move
generation (stop flag clear, mate-distance window still open, no draw
return, depth positive, no transposition cutoff, no null-move cutoff) and
the legal-move list is empty, Search::search returns -MATE_VALUE + ply when
the side to move is in check and 0 otherwise. -/
theorem search_no_legal_moves
    (v : NodeView) (depth ply alpha beta : Int) (nm : Bool)
    (qAt : Int → Int → Int)
    (hstop : v.stopped = false)
    (hwin : mdpAlpha alpha ply < mdpBeta beta ply)
    (hdraw : ¬(ply > 0 ∧ (v.isRepetition = true ∨ v.isHalfMoveDraw = true)))
    (hdepth : 0 < depth)
    (htt : ttCutoff v.ttResult v.hash depth
        (decide (mdpBeta beta ply - mdpAlpha alpha ply > 1))
        (mdpAlpha alpha ply) (mdpBeta beta ply) ply = none)
    (hnull : nullCutoff v depth (mdpBeta beta ply)
        (decide (mdpBeta beta ply - mdpAlpha alpha ply > 1)) nm = none)
    (hmoves : v.legalMoves = []) :
    searchNode v depth ply alpha beta nm qAt
      = if v.inCheck then -MATE_VALUE + ply else 0 := by
  simp only [searchNode, hstop, Bool.false_eq_true, if_false]
  rw [if_neg (by omega : ¬ mdpAlpha alpha ply ≥ mdpBeta beta ply)]
  rw [if_neg hdraw]
  rw [if_neg (by omega : ¬ depth ≤ 0)]
  rw [htt, hnull, hmoves]
  simp

/-- Witness for C8: the concrete node view c8View (in check, no moves, no
TT entry) at depth 1, ply 2, window [-50, 50] returns the mated score
-30000 + 2. -/
theorem search_no_legal_moves_witness :
    searchNode c8View 1 2 (-50) 50 true (fun _ _ => 0) = -29998 := by
  have h := search_no_legal_moves c8View 1 2 (-50) 50 true (fun _ _ => 0)
    rfl (by norm_num [mdpAlpha, mdpBeta, MATE_VALUE])
    (by simp [c8View]) (by norm_num) rfl (by norm_num [nullCutoff]) rfl
  rw [h]
  norm_num [c8View, MATE_VALUE]

end EngineModel

namespace EngineModel

/-- A transposition store never changes the age counter. -/
theorem ttStore_age (tt : TTState) (hash : ℕ) (depth score : Int)
    (flag : TTFlag) (move : MoveM) (eval : Int) :
    (ttStore tt hash depth score flag move eval).age = tt.age := by
  simp only [ttStore]
  split <;> rfl

/-- A batch of stores never changes the age counter. -/
theorem runStores_age (ops : List StoreOp) :
    ∀ tt : TTState, (runStores tt ops).age = tt.age := by
  induction ops with
  | nil => intro tt; rfl
  | cons op rest ih =>
    intro tt
    unfold runStores
    rw [List.foldl_cons]
    have h2 := ih (ttStore tt op.hash op.depth op.score op.flag op.move op.eval)
    unfold runStores at h2
    rw [h2, ttStore_age]

/-- Iterated batches of stores never change the age counter. -/
theorem foldlStores_age (batches : List (List StoreOp)) :
    ∀ tt : TTState, (batches.foldl runStores tt).age = tt.age := by
  induction batches with
  | nil => intro tt; rfl
  | cons ops rest ih =>
    intro tt
    rw [List.foldl_cons, ih, runStores_age]

/-! ## Claim C3 — the driver and the transposition-table age -/

/-- Claim C3 is contradicted by the code: ChessEngine::search resets the
search info but never calls TranspositionTable::newSearch — the age counter
is unchanged by an entire search request (setup plus every store the
iterative-deepening loop issues), so entries stored by successive requests
all carry the same age.  (newSearch itself, had it been called, would bump
the age by 1 mod 256, as the second conjunct records.) -/
theorem driver_never_changes_tt_age :
    (∀ (st : EngineSt) (movetime ourTime ourInc : Int) (anyClock infinite : Bool)
       (iterationStores : List (List StoreOp)),
      (searchDriver st movetime ourTime ourInc anyClock infinite iterationStores).tt.age
        = st.tt.age) ∧
    (∀ tt : TTState, (newSearch tt).age = (tt.age + 1) % 256) := by
  constructor
  · intro st movetime ourTime ourInc anyClock infinite iterationStores
    unfold searchDriver searchSetup
    simp only
    rw [foldlStores_age]
  · intro tt
    rfl

end EngineModel

namespace EngineModel

/-! ## Claim C4 — newGame and the move-ordering state -/

/-- Claim C4 as stated is FALSE on the code: on the engine state c4Engine
(history[0][1][2] = 7, killers[3][0] = 660), newGame leaves both cells
untouched — ChessEngine::newGame clears only the board, the transposition
table and the search info, and never calls Search::clearHistory. -/
theorem newGame_keeps_ordering_cex :
    (newGame c4Engine).ord.history 0 1 2 = 7 ∧
    (newGame c4Engine).ord.killers 3 0 = 660 ∧
    (newGame c4Engine).ord.history 0 1 2 ≠ 0 ∧
    (newGame c4Engine).ord.killers 3 0 ≠ 0 ∧
    (newGame c4Engine).tt.table 0 = emptyEntry ∧
    (newGame c4Engine).tt.age = 0 := by
  refine ⟨rfl, rfl, by decide, by decide, rfl, rfl⟩

/-- Claim C4 amended: newGame clears the transposition table (every slot
reset to the empty entry, age reset to 0) and resets the search info, but
leaves the move-ordering state — every history counter and every killer
slot — exactly as it was; the ordering tables are zeroed only by the Search
constructor via clearHistory. -/
theorem newGame_clears_tt_not_ordering (st : EngineSt) :
    (newGame st).ord.history = st.ord.history ∧
    (newGame st).ord.killers = st.ord.killers ∧
    (∀ i, (newGame st).tt.table i = emptyEntry) ∧
    (newGame st).tt.age = 0 ∧
    (newGame st).info.stopped = false ∧
    (newGame st).info.nodes = 0 :=
  ⟨rfl, rfl, fun _ => rfl, rfl, rfl, rfl⟩

end EngineModel

namespace EngineModel

/-! ## Claim C5 — depth monotonicity of same-index stores -/

/-- Claim C5 as stated is FALSE on the code: in the table c5TT (two slots,
mask 1, age 0), storing hash 2 at depth 10 and then hash 4 at depth 1 hits
the same index 0 with the same age on both stores, yet the second store
evicts the first (different hash always replaces) and the slot's depth
drops from 10 to 1. -/
theorem ttStore_depth_decreases_cex :
    getIndex c5TT 2 = 0 ∧
    getIndex c5s1 4 = 0 ∧
    c5s2.age = c5s1.age ∧
    (c5s1.table 0).depth = 10 ∧
    (c5s2.table 0).depth = 1 ∧
    ¬((c5s1.table 0).depth ≤ (c5s2.table 0).depth) := by
  decide

/-- Claim C5 amended: within one search (equal ages), the depth of a slot
is non-decreasing across stores to that index whose hash MATCHES the
incumbent entry (re-stores of the same position); a store whose hash
differs always replaces the slot and may decrease its depth, as the
counterexample shows.  Depths passed by the search lie in [0, 255] (the
entry narrows them through a uint8). -/
theorem ttStore_same_hash_depth_monotone
    (tt : TTState) (hash : ℕ) (depth score eval : Int) (flag : TTFlag)
    (move : MoveM)
    (hhash : (tt.table (getIndex tt hash)).hash = hash)
    (hage : (tt.table (getIndex tt hash)).age = tt.age)
    (hd0 : 0 ≤ depth) (hd : depth ≤ 255) :
    (tt.table (getIndex tt hash)).depth ≤
      ((ttStore tt hash depth score flag move eval).table (getIndex tt hash)).depth := by
  simp only [ttStore]
  split
  · rename_i hcond
    simp only [eq_self_iff_true, if_true]
    rcases hcond with hne | hrep
    · exact absurd hhash hne
    · unfold shouldReplace at hrep
      rw [if_neg (by rw [hage]; exact fun hcon => hcon rfl)] at hrep
      have hge : depth ≥ ((tt.table (getIndex tt hash)).depth : Int) := by
        exact_mod_cast of_decide_eq_true hrep
      unfold toUInt8
      omega
  · exact le_refl _

/-- Witness for the amended C5: re-storing hash 2 at depth 12 over the
depth-10 entry of c5s1 does not decrease the slot depth. -/
theorem ttStore_same_hash_depth_monotone_witness :
    (c5s1.table (getIndex c5s1 2)).depth ≤
      ((ttStore c5s1 2 12 0 .tt_exact NO_MOVE 0).table (getIndex c5s1 2)).depth :=
  ttStore_same_hash_depth_monotone c5s1 2 12 0 0 .tt_exact NO_MOVE
    (by decide) (by decide) (by norm_num) (by norm_num)

end EngineModel

namespace EngineModel

/-! ## Claim C6 — non-positive hash size -/

/-- Claim C6 is right and the code is wrong: constructing the table with
size_mb = 0 (reachable via setoption name Hash value 0 — the handler and
ChessEngine::setHashSize pass the value through unclamped although the
engine advertises min 1) yields table_size_ = 0 and, by size_t underflow,
table_mask_ = 2^64 - 1, so getIndex returns the raw hash: already hash 5
indexes slot 5 of a zero-length allocation, out of bounds. -/
theorem ttInit_zero_out_of_bounds :
    (ttInit 0).tableSize = 0 ∧
    (ttInit 0).mask = 2 ^ 64 - 1 ∧
    getIndex (ttInit 0) 5 = 5 ∧
    ¬ getIndex (ttInit 0) 5 < (ttInit 0).tableSize := by
  refine ⟨rfl, rfl, ?_, ?_⟩
  · decide
  · decide

end EngineModel

namespace EngineModel

/-! ## Claim C7 — PolyGlot en-passant key term -/

/-- Claim C7 as stated is FALSE on the code: the board c7Board has an
en-passant square on the a-file but no pawn at all, so no friendly pawn can
capture (hasEpCapturer is false), yet getPolyGlotKey still XORs R[772]: its
key (1 under c7R) differs from the key of the same position without the
en-passant square (0), while the claim demands they be equal (and the
strict spec-worded key indeed yields 0). -/
theorem polyglot_ep_without_capturer_cex :
    hasEpCapturer c7Board = false ∧
    getPolyGlotKey c7R c7Board = 1 ∧
    getPolyGlotKeyStrict c7R c7Board = 0 ∧
    getPolyGlotKey c7R (clearEp c7Board) = 0 ∧
    getPolyGlotKey c7R c7Board ≠ getPolyGlotKey c7R (clearEp c7Board) := by
  decide

/-- Claim C7 amended: the en-passant constant R[772 + file] is XORed into
the key if and only if an en-passant square exists — the code performs no
check for a capturing pawn (the simplification the spec flags in section
9): the key always equals the key of the en-passant-free position XORed
with the file term exactly when epSq is set. -/
theorem polyglot_ep_term_iff_ep_square (r : ℕ → ℕ) (b : BookBoard) :
    getPolyGlotKey r b =
      (match b.epSq with
       | some sq => getPolyGlotKey r (clearEp b) ^^^ r (772 + fileOf sq)
       | none => getPolyGlotKey r (clearEp b)) := by
  have hxor : ∀ x y z : ℕ, x ^^^ y ^^^ z = x ^^^ z ^^^ y := by
    intro x y z
    rw [Nat.xor_assoc, Nat.xor_comm y z, ← Nat.xor_assoc]
  unfold getPolyGlotKey clearEp
  rcases b.epSq with _ | sq
  · rfl
  · simp only
    split
    · exact hxor _ _ _
    · rfl

end EngineModel

namespace EngineModel

/-- Every non-NO_MOVE result of the selection walk is drawn from the
board's legal-move list. -/
theorem selLoop_legal_or_none (b : BookBoard) (randomWeight : Int) :
    ∀ (entries : List PGEntry) (cur : Int),
      selLoop b randomWeight entries cur = NO_MOVE ∨
      selLoop b randomWeight entries cur ∈ b.legalMoves := by
  intro entries
  induction entries with
  | nil => intro cur; exact Or.inl rfl
  | cons e rest ih =>
    intro cur
    rw [selLoop]
    split
    · dsimp only
      split
      · rename_i hmem
        exact Or.inr hmem
      · exact Or.inl rfl
    · exact ih _

/-! ## Claim C9 — book moves are legal -/

/-- Claim C9: for every position, book and outcome of the weight draw,
OpeningBook::getMove either returns NO_MOVE or a member of the position's
legal-move list — the selected entry is decoded and then filtered against
the generated legal moves, with NO_MOVE returned when the decoded move is
not among them. -/
theorem book_move_legal_or_none (r : ℕ → ℕ) (entries : List PGEntry)
    (loaded : Bool) (b : BookBoard) (randomWeight : Int) :
    getMoveBook r entries loaded b randomWeight = NO_MOVE ∨
    getMoveBook r entries loaded b randomWeight ∈ b.legalMoves := by
  unfold getMoveBook
  split
  · exact Or.inl rfl
  · simp only
    split
    · exact Or.inl rfl
    · unfold selectMove
      split
      · exact Or.inl rfl
      · dsimp only
        split
        · exact Or.inl rfl
        · exact selLoop_legal_or_none b randomWeight _ 0

end EngineModel

namespace EngineModel

/-- Concrete check of the selection pipeline (spec section 8, scenario 7):
a single-entry book for the position's key returns the decoded move, which
is legal. -/
theorem book_concrete_selection :
    getMoveBook c9R c9Book true c9Board 0 = c9Move ∧ c9Move ∈ c9Board.legalMoves := by
  decide

end EngineModel
